import Mathlib

/-!
Verification of the Pixel Heroes combat/progression engine
(src/sourcecode.py) against its natural-language specification.

The Python source is shallowly embedded: dictionaries become structures,
machine integers become Nat/Int, Python float divisions in the hp-rescale
formula are modelled by exact rational arithmetic, and each random draw
becomes an explicit input (a roll, a coin, an iv record), so that every
function here is executable and deterministic.
-/

set_option maxHeartbeats 1000000

namespace PixelHeroes

/-- Python `str.lower()`, written over the underlying character list so
that it evaluates by kernel reduction. -/
def lowerStr (s : String) : String := String.mk (s.data.map Char.toLower)

/-- Python `str.isdigit()` for the ASCII identifiers this program uses. -/
def isDigits (s : String) : Bool := !s.data.isEmpty && s.data.all Char.isDigit

/-- Python `int(...)` applied to an all-digit string. -/
def strToNat (s : String) : Nat := s.data.foldl (fun acc c => acc * 10 + (c.toNat - 48)) 0

/-- Python `str.startswith(pre)`. -/
def startsWithStr (s pre : String) : Bool := pre.data.isPrefixOf s.data

/-- Round a rational to the nearest integer with ties to even — the
rounding rule of IEEE 754 binary arithmetic. -/
def roundRatEven (q : Rat) : Int :=
  if q - ⌊q⌋ < 1/2 then ⌊q⌋
  else if 1/2 < q - ⌊q⌋ then ⌊q⌋ + 1
  else if ⌊q⌋ % 2 = 0 then ⌊q⌋ else ⌊q⌋ + 1

/-- The floor of the base-2 logarithm of `a / b`, for `a, b ≥ 1`: the
quotient of the leading-bit exponents, corrected by one when the mantissa
comparison (cleared of negative powers) says `a / b` lies below it. -/
def qlog2floor (a b : Nat) : Int :=
  if b * 2 ^ ((Nat.log 2 a : Int) - (Nat.log 2 b : Int)).toNat ≤
      a * 2 ^ (-((Nat.log 2 a : Int) - (Nat.log 2 b : Int))).toNat then
    (Nat.log 2 a : Int) - (Nat.log 2 b : Int)
  else
    (Nat.log 2 a : Int) - (Nat.log 2 b : Int) - 1

/-- The floor of the base-2 logarithm of a positive rational. -/
def qlog2floorQ (q : Rat) : Int := qlog2floor q.num.toNat q.den

/-- Round a positive rational to 53 significant bits, nearest, ties to
even: the exponent of its leading bit is `qlog2floorQ q`, so one unit in
the last place is `2 ^ (qlog2floorQ q - 52)`. -/
def fl64Pos (q : Rat) : Rat :=
  (roundRatEven (q / 2 ^ (qlog2floorQ q - 52)) : Rat) * 2 ^ (qlog2floorQ q - 52)

/-- The IEEE binary64 double nearest to a rational, as an exact rational
(53-bit round-to-nearest-even with unbounded exponent, which agrees with
binary64 wherever the result is finite and normal — the case for every
value the stat arithmetic of this program produces).  Python's float
division and multiplication return exactly this rounding of the exact
result. -/
def fl64 (q : Rat) : Rat :=
  if 0 < q then fl64Pos q
  else if q < 0 then -fl64Pos (-q)
  else 0

/-- Per-stat record, used for base stats, IVs, EVs and derived stats
(`{"hp": ..., "attack": ..., "defense": ..., "magic": ..., "speed": ...}`). -/
structure Stats where
  hp : Nat
  attack : Nat
  defense : Nat
  magic : Nat
  speed : Nat
deriving DecidableEq, Repr

/-- A moveset entry as built by `build_instance_from_template`:
`{"move": ..., "type": ..., "power": int or non-numeric, "acc": ...}`.
`power = none` models a non-numeric power field (`int(pwr_raw)` raising).
`acc` stores the raw stored accuracy value; `mvdata.get("acc") or ... or 100`
is applied at use time (see `acc_eff`). -/
structure Move where
  move : String
  type : String
  power : Option Int
  acc : Nat
deriving DecidableEq, Repr

/-- An entity instance (hero or monster): the dictionary fields that the
combat and progression code reads and writes.  `base_stats` models the
optional `"_base_stats"` key created by the `/elixir` command. -/
structure Entity where
  name : String
  unique_id : String
  level : Nat
  xp : Nat
  shiny : Bool
  locked : Bool
  ivs : Stats
  evs : Stats
  stats : Stats
  current_hp : Nat
  moveset : List Move
  base_stats : Option Stats
deriving DecidableEq, Repr

/-- `calc_hp(base, iv, ev, level)`:
`math.floor(((2*base + iv + (ev // 4)) * level) / 100) + level + 10`. -/
def calc_hp (base iv ev level : Nat) : Nat :=
  (2 * base + iv + ev / 4) * level / 100 + level + 10

/-- `calc_stat(base, iv, ev, level)`:
`math.floor(((2*base + iv + (ev // 4)) * level) / 100) + 5`. -/
def calc_stat (base iv ev level : Nat) : Nat :=
  (2 * base + iv + ev / 4) * level / 100 + 5

/-- `entity_xp_required(level) = int(0.015 * level**3 + 10 * level**2)`.
For every level in [0, 201] the double-precision computation of the source
agrees with the exact integer form `3*level^3 / 200 + 10*level^2`
(checked exhaustively), so the embedding uses the integer form. -/
def entity_xp_required (level : Nat) : Nat :=
  3 * level ^ 3 / 200 + 10 * level ^ 2

/-- Derive all five stats from a base record at the entity's ivs/evs/level,
exactly as the block inside `recalc_stats_from_base` does. -/
def derive_stats (base : Stats) (ivs evs : Stats) (level : Nat) : Stats :=
  { hp := calc_hp base.hp ivs.hp evs.hp level
    attack := calc_stat base.attack ivs.attack evs.attack level
    defense := calc_stat base.defense ivs.defense evs.defense level
    magic := calc_stat base.magic ivs.magic evs.magic level
    speed := calc_stat base.speed ivs.speed evs.speed level }

/-- The old max hp read by `recalc_stats_from_base`:
`entity.get("stats", {}).get("hp", 1) or 1` (a stored 0 is falsy). -/
def old_max_hp (ent : Entity) : Nat :=
  if ent.stats.hp = 0 then 1 else ent.stats.hp

/-- The clamped hp fraction `max(0.0, min(1.0, old_cur / old_max))`:
Python's true division of two ints returns the binary64 double nearest to
the exact quotient, and the float comparisons of `min`/`max` are exact, so
the fraction is the clamp of `fl64` of the exact quotient. -/
def hp_fraction (ent : Entity) : Rat :=
  max 0 (min 1 (fl64 ((ent.current_hp : Rat) / (old_max_hp ent : Rat))))

/-- `recalc_stats_from_base(entity, base_stats)`: recompute the stat block
from the given base record and rescale `current_hp` by
`max(1, int(new_hp * hp_pct))`.  The int·float product converts the int to
a double and multiplies with one binary64 rounding, so it is `fl64` of the
exact product of `fl64 new_hp` and the fraction; `int()` of the
non-negative result truncates, i.e. floors. -/
def recalc_stats_from_base (ent : Entity) (base : Stats) : Entity :=
  let pct := hp_fraction ent
  let newStats := derive_stats base ent.ivs ent.evs ent.level
  { ent with
    stats := newStats
    current_hp := max 1 (⌊fl64 (fl64 (newStats.hp : Rat) * pct)⌋).toNat }

/-- Battle-log events appended by `award_entity_xp`. -/
inductive LogEvent where
  | maxed (name : String)
  | levelUp (name : String) (newLevel : Nat)
deriving DecidableEq, Repr

/-- One iteration body of the level-up while loop before the recompute:
`entity["xp"] -= entity_xp_required(entity["level"] + 1); entity["level"] += 1`. -/
def level_up_pre (ent : Entity) : Entity :=
  { ent with xp := ent.xp - entity_xp_required (ent.level + 1), level := ent.level + 1 }

/-- One full iteration body: subtract the threshold, increment the level,
and recompute the stats from the base the provider returns for the updated
entity (`base = base_stats_provider(entity); recalc_stats_from_base(...)`). -/
def levelUpStep (ent : Entity) (bp : Entity → Stats) : Entity :=
  recalc_stats_from_base (level_up_pre ent) (bp (level_up_pre ent))

/-- The level-up while loop of `award_entity_xp`:
`while entity["xp"] >= entity_xp_required(entity["level"] + 1) and entity["level"] < 100`:
run the iteration body and append a level-up event. -/
def award_loop_go : Nat → Entity → (Entity → Stats) → Entity × List LogEvent
  | 0, ent, _ => (ent, [])
  | fuel + 1, ent, bp =>
    if entity_xp_required (ent.level + 1) ≤ ent.xp ∧ ent.level < 100 then
      ((award_loop_go fuel (levelUpStep ent bp) bp).1,
        LogEvent.levelUp (levelUpStep ent bp).name (levelUpStep ent bp).level ::
          (award_loop_go fuel (levelUpStep ent bp) bp).2)
    else
      (ent, [])

/-- The while loop terminates because the level rises towards the cap on
every iteration; `100 - level` bounds the remaining iterations, so running
the loop body with that much fuel is the loop itself (the guard requires
`level < 100`, hence the fuel can never run out before the guard fails). -/
def award_loop (ent : Entity) (bp : Entity → Stats) : Entity × List LogEvent :=
  award_loop_go (100 - ent.level) ent bp

/-- `award_entity_xp(entity, xp_gain, log, base_stats_provider)`.  The entity
is assumed to carry full iv/ev records, so `ensure_full_ivs_evs` is the
identity.  Returns the updated entity and the appended log events. -/
def award_entity_xp (ent : Entity) (gain : Nat) (bp : Entity → Stats) :
    Entity × List LogEvent :=
  if 100 ≤ ent.level then
    ({ ent with level := 100, xp := 0 }, [LogEvent.maxed ent.name])
  else
    award_loop { ent with xp := ent.xp + gain } bp

/-- Outcome of one `resolve_move` call: unknown move, accuracy miss,
non-numeric-power support move, or a hit for `dmg` damage. -/
inductive MoveOutcome where
  | failed
  | missed
  | support
  | hit (dmg : Nat)
deriving DecidableEq, Repr

/-- Case-insensitive moveset lookup (`_label(entry).lower() == mv_name.lower()`,
first match wins). -/
def find_move (moveset : List Move) (mvName : String) : Option Move :=
  moveset.find? (fun m => lowerStr m.move == lowerStr mvName)

/-- The accuracy value actually used by the check:
`acc_raw = mvdata.get("acc") or mvdata.get("acc.") or 100`.  A stored 0 is
falsy in Python, so it falls through to the default 100. -/
def acc_eff (mv : Move) : Nat :=
  if mv.acc = 0 then 100 else mv.acc

/-- The damage expression of `resolve_move`:
`max(1, (power + attacker_stat // 2) - (defender["stats"]["defense"] // 3))`,
with the magic stat for `type == "Magical"` and the attack stat otherwise. -/
def damage_calc (mvType : String) (power : Int) (atk df : Stats) : Int :=
  let offense : Nat := if mvType = "Magical" then atk.magic else atk.attack
  max 1 (power + (offense / 2 : Nat) - ((df.defense / 3 : Nat) : Int))

/-- `resolve_move(attacker, defender, chosen_move)` given the accuracy roll
`random.randint(1, 100)` as an explicit input.  Returns the outcome and the
updated defender (`current_hp` floored at 0, which Nat subtraction models). -/
def resolve_move (attacker defender : Entity) (mvName : String) (roll : Nat) :
    MoveOutcome × Entity :=
  match find_move attacker.moveset mvName with
  | none => (MoveOutcome.failed, defender)
  | some mv =>
    if acc_eff mv < roll then (MoveOutcome.missed, defender)
    else
      match mv.power with
      | none => (MoveOutcome.support, defender)
      | some p =>
        let dmg := (damage_calc mv.type p attacker.stats defender.stats).toNat
        (MoveOutcome.hit dmg, { defender with current_hp := defender.current_hp - dmg })

/-- The two sides of a battle turn. -/
inductive Side where
  | player
  | enemy
deriving DecidableEq, Repr

/-- The turn order computed by `process_turn`: the strictly faster side
first, and on a speed tie `random.choice` between the two orders, modelled
by the fair coin `coin`. -/
def battle_order (pSpeed eSpeed : Nat) (coin : Bool) (mvP mvE : String) :
    List (Side × String) :=
  if eSpeed < pSpeed then [(Side.player, mvP), (Side.enemy, mvE)]
  else if pSpeed < eSpeed then [(Side.enemy, mvE), (Side.player, mvP)]
  else if coin then [(Side.player, mvP), (Side.enemy, mvE)]
  else [(Side.enemy, mvE), (Side.player, mvP)]

/-- One iteration body of the `for side, mv in order` loop: the move is
resolved only when both sides have positive hp. -/
def exec_one (p e : Entity) (act : Side × String) (roll : Nat) :
    Entity × Entity × List (Side × MoveOutcome) :=
  if 0 < p.current_hp ∧ 0 < e.current_hp then
    match act.1 with
    | Side.player =>
      let r := resolve_move p e act.2 roll
      (p, r.2, [(Side.player, r.1)])
    | Side.enemy =>
      let r := resolve_move e p act.2 roll
      (r.2, e, [(Side.enemy, r.1)])
  else (p, e, [])

/-- The execution loop of `process_turn`: after each iteration the function
returns as soon as either side's hp is 0 (reward settlement for the enemy,
swap/defeat handling for the player).  A roll is consumed exactly when a
move is resolved; the returned list records the moves that actually
executed. -/
def run_turn (p e : Entity) :
    List (Side × String) → List Nat → Entity × Entity × List (Side × MoveOutcome)
  | [], _ => (p, e, [])
  | act :: rest, rolls =>
    let step := exec_one p e act (rolls.headD 1)
    if step.2.1.current_hp = 0 ∨ step.1.current_hp = 0 then step
    else
      let next := run_turn step.1 step.2.1 rest rolls.tail
      (next.1, next.2.1, step.2.2 ++ next.2.2)

/-- A full combat turn given the player's chosen move, the enemy's selected
move label, the tie coin and the accuracy rolls. -/
def process_turn (p e : Entity) (mvP mvE : String) (coin : Bool)
    (rolls : List Nat) : Entity × Entity × List (Side × MoveOutcome) :=
  run_turn p e (battle_order p.stats.speed e.stats.speed coin mvP mvE) rolls

/-- A raw skill entry of a template (`{"skill", "type", "power", "acc.", "lv."}`).
`power`/`acc` carry the already-parsed values of
`int(s["power"]) if str(s["power"]).isdigit() else 0` and
`int(s["acc."]) if str(s["acc."]).isdigit() else 100`. -/
structure Skill where
  skill : String
  type : String
  power : Nat
  acc : Nat
  lv : Nat
deriving DecidableEq, Repr

/-- A hero or monster template from the catalog. -/
structure Template where
  id : Nat
  name : String
  stats : Stats
  skills : List Skill
  rarity : String
  level : Option Nat
deriving DecidableEq, Repr

/-- The random draws consumed by `build_instance_from_template`: the shiny
Bernoulli outcome (`random.random() < 1/5000`) and the five iv rolls. -/
structure GenRolls where
  shinyRoll : Bool
  ivs : Stats
deriving DecidableEq, Repr

/-- Moveset construction of `build_instance_from_template`: the first four
skills of the template, parsed. -/
def template_moveset (t : Template) : List Move :=
  (t.skills.take 4).map (fun s =>
    { move := s.skill, type := s.type, power := some (s.power : Int), acc := s.acc })

/-- `level = level or template.get("level", 10)`: a passed 0/None is falsy
and falls back to the template's level (default 10). -/
def resolved_level (level : Option Nat) (t : Template) : Nat :=
  match level with
  | some l => if l = 0 then t.level.getD 10 else l
  | none => t.level.getD 10

/-- `build_instance_from_template(template, level=None, is_hero=False)`.
The shiny flag is `is_hero and (random.random() < 1/5000)`: it ignores any
shiny flag carried by the template. -/
def build_instance_from_template (t : Template) (level : Option Nat)
    (is_hero : Bool) (rolls : GenRolls) : Entity :=
  let lvl := resolved_level level t
  let evs : Stats := { hp := 0, attack := 0, defense := 0, magic := 0, speed := 0 }
  let scaled := derive_stats t.stats rolls.ivs evs lvl
  { name := t.name
    unique_id := ""
    level := lvl
    xp := 0
    shiny := is_hero && rolls.shinyRoll
    locked := false
    ivs := rolls.ivs
    evs := evs
    stats := scaled
    current_hp := scaled.hp
    moveset := template_moveset t
    base_stats := none }

/-- The hero-encounter branch of `/explore` materializes the picked template
with `build_instance_from_template(template)` — `is_hero` is left at its
default `False`. -/
def explore_hero_instance (t : Template) (rolls : GenRolls) : Entity :=
  build_instance_from_template t none false rolls

/-- The shiny roll of a starter pick:
`"shiny": random.random() < (1/5000)` (the Bernoulli outcome is `roll`). -/
def starter_shiny (roll : Bool) : Bool := roll

/-- The shiny flag of a chest-spawned epic hero:
`hero_inst["shiny"] = (random.randint(1, 20) == 1)`. -/
def chest_hero_shiny (k : Nat) : Bool := k == 1

/-- A special-summon reward instance (`/summon`): after building, the level
is redrawn, `inst["shiny"] = True`, and `current_hp` reset to max. -/
def summon_instance (t : Template) (lvl : Nat) (rolls : GenRolls) : Entity :=
  let inst := build_instance_from_template t none false rolls
  { inst with level := lvl, shiny := true, current_hp := inst.stats.hp }

/-- The level-up step of `/elixir`: raise the level by the usable amount,
snapshot the hero's *current derived stats* into `"_base_stats"` if that key
is absent, and recompute from that snapshot. -/
def elixir_levelup (hero : Entity) (k : Nat) : Entity :=
  let hero1 := { hero with level := hero.level + k }
  match hero1.base_stats with
  | some base => recalc_stats_from_base hero1 base
  | none =>
    let snap := hero1.stats
    recalc_stats_from_base { hero1 with base_stats := some snap } snap

section AssocList

variable {κ β : Type} [DecidableEq κ]

/-- Lookup in an association list modelling a Python dict (first match). -/
def alGet : List (κ × β) → κ → Option β
  | [], _ => none
  | (k', v) :: rest, k => if k' = k then some v else alGet rest k

/-- `d[k] = v`: overwrite the first binding of `k`, or append a new one. -/
def alSet (k : κ) (v : β) : List (κ × β) → List (κ × β)
  | [] => [(k, v)]
  | (k', v') :: rest => if k' = k then (k, v) :: rest else (k', v') :: alSet k v rest

/-- `del d[k]`: drop the first binding of `k`. -/
def alErase (k : κ) : List (κ × β) → List (κ × β)
  | [] => []
  | (k', v') :: rest => if k' = k then rest else (k', v') :: alErase k rest

end AssocList

/-- The bag of a player record: item name → count. -/
abbrev Bag := List (String × Int)

/-- `bag.get(k, 0)`. -/
def bagGet (bag : Bag) (k : String) : Int := (alGet bag k).getD 0

/-- The charging-relic record written by `/use`:
`{"item": ..., "hero": ..., "kills": 0, "goal": 100}`. -/
structure Relic where
  item : String
  hero : String
  kills : Nat
  goal : Nat
deriving DecidableEq, Repr

/-- The slice of a player record that the verified operations touch. -/
structure Player where
  coins : Int
  bag : Bag
  pc : List Entity
  active_team : List String
  relic_charge : Option Relic
  respawn_orb : Option Relic
deriving DecidableEq, Repr

/-- The confirm button of `/use`: store the activated relic under the
`"relic_charge"` key of the player record. -/
def use_confirm (p : Player) (item hero : String) : Player :=
  { p with relic_charge := some { item := item, hero := hero, kills := 0, goal := 100 } }

/-- The kill-progress step at the end of `_handle_rewards`: it reads the
`"respawn_orb"` key, increments its kill counter, and on reaching the goal
swaps the relic for its `"Filled ..."` bag item and deletes the record. -/
def rewards_relic_step (p : Player) : Player :=
  match p.respawn_orb with
  | none => p
  | some orb =>
    let kills := orb.kills + 1
    if orb.goal ≤ kills then
      let baseName := lowerStr orb.item
      let filledName := lowerStr ("Filled " ++ orb.item)
      let bag1 :=
        match alGet p.bag baseName with
        | some c => if c - 1 ≤ 0 then alErase baseName p.bag else alSet baseName (c - 1) p.bag
        | none => p.bag
      let bag2 := alSet filledName (bagGet bag1 filledName + 1) bag1
      { p with bag := bag2, respawn_orb := none }
    else
      { p with respawn_orb := some { orb with kills := kills } }

/-- The confirm button of `/barracksclear` (`ConfirmClearView.confirm`):
keep exactly the pc entries whose id is in the active team. -/
def barracks_clear (p : Player) : Player :=
  { p with pc := p.pc.filter (fun h => p.active_team.contains h.unique_id) }

/-- Hero resolution of `/partyremove`: a digit string is a 1-based team
slot, anything else is a case-insensitive id prefix that must be in the
active team. -/
def partyremove_find (p : Player) (identifier : String) : Option Entity :=
  if isDigits identifier then
    let slot := strToNat identifier
    if 1 ≤ slot ∧ slot ≤ p.active_team.length then
      p.pc.find? (fun h => h.unique_id == p.active_team.getD (slot - 1) "")
    else none
  else
    p.pc.find? (fun h =>
      startsWithStr (lowerStr h.unique_id) (lowerStr identifier)
        && p.active_team.contains h.unique_id)

/-- `/partyremove`: locked heroes are refused; otherwise the id is removed
from the active team. -/
def partyremove (p : Player) (identifier : String) : Player :=
  match partyremove_find p identifier with
  | none => p
  | some h =>
    if h.locked then p
    else { p with active_team := p.active_team.erase h.unique_id }

/-- `valid_duration(hours)`: `hours in [12, 24, 48, 72]`. -/
def valid_duration (hours : Nat) : Bool :=
  hours == 12 || hours == 24 || hours == 48 || hours == 72

/-- The stake-taking boundary of `/slots`: the only check before
`players[user_id]["coins"] -= amount` is `coins < amount`.  Returns the new
balance when the bet is accepted. -/
def slots_bet (coins amount : Int) : Option Int :=
  if coins < amount then none else some (coins - amount)

/-- An auction record created by `/ahsell`. -/
structure Auction where
  seller : String
  item : String
  amount : Int
  price : Int
  hours : Nat
deriving DecidableEq, Repr

/-- The boundary of `/ahsell`: duration check, case-insensitive bag lookup,
`bag[key] < amount` check, then the deduction and the listing.  Returns the
mutated bag and the new auction when accepted. -/
def ahsell (uid : String) (bag : Bag) (item : String) (amount price : Int)
    (hours : Nat) : Option (Bag × Auction) :=
  if !valid_duration hours then none
  else
    match bag.find? (fun kv => lowerStr kv.1 == lowerStr item) with
    | none => none
    | some kv =>
      if kv.2 < amount then none
      else
        let newCnt := kv.2 - amount
        let bag1 := if newCnt ≤ 0 then alErase kv.1 bag else alSet kv.1 newCnt bag
        some (bag1, { seller := uid, item := kv.1, amount := amount,
                      price := price, hours := hours })

/-- An open coinflip: `{"creator": ..., "amount": ..., "time": ...}`
(creation time in seconds). -/
structure Coinflip where
  creator : String
  amount : Int
  time : Nat
deriving DecidableEq, Repr

/-- The shared state the coinflip subsystem mutates: every registered
player's coin balance and the open coinflips keyed by id. -/
structure CFState where
  balances : List (String × Int)
  flips : List (Nat × Coinflip)
deriving DecidableEq, Repr

/-- `EXPIRY_SECONDS = 1800`. -/
def EXPIRY_SECONDS : Nat := 1800

/-- `cf_id = str(int(time.time() * 1000))[-6:]`: the last six decimal digits
of the millisecond clock, i.e. the value mod 10^6. -/
def cf_id_of_ms (nowMs : Nat) : Nat := nowMs % 1000000

/-- `/cfcreate`: reject unregistered users, non-positive amounts and
insufficient balances; otherwise deduct the stake and store the escrow
under the time-derived id (a plain dict assignment, overwriting any open
coinflip that already holds that id). -/
def cfcreate (s : CFState) (uid : String) (amount : Int) (nowMs : Nat) : CFState :=
  match alGet s.balances uid with
  | none => s
  | some coins =>
    if amount ≤ 0 then s
    else if coins < amount then s
    else
      { balances := alSet uid (coins - amount) s.balances
        flips := alSet (cf_id_of_ms nowMs)
          { creator := uid, amount := amount, time := nowMs / 1000 } s.flips }

/-- `players[winner]["coins"] += prize` (a no-op model of the KeyError the
source would raise on an unregistered winner; the conservation theorem
assumes registered creators). -/
def cf_pay (b : List (String × Int)) (winner : String) (prize : Int) :
    List (String × Int) :=
  match alGet b winner with
  | some w => alSet winner (w + prize) b
  | none => b

/-- `/cftake`: deduct the challenger's matching stake, pay the winner
(chosen by `random.choice`, modelled by `creatorWins`) twice the stake, and
delete the escrow. -/
def cftake (s : CFState) (uid : String) (id : Nat) (creatorWins : Bool) : CFState :=
  match alGet s.balances uid with
  | none => s
  | some coins =>
    match alGet s.flips id with
    | none => s
    | some flip =>
      if uid = flip.creator then s
      else if coins < flip.amount then s
      else
        { balances :=
            cf_pay (alSet uid (coins - flip.amount) s.balances)
              (if creatorWins then flip.creator else uid) (2 * flip.amount)
          flips := alErase id s.flips }

/-- The refund pass of `coinflip_cleanup` over the expired entries:
`players[creator]["coins"] += amount` whenever the creator is registered. -/
def refundAll (b : List (String × Int)) : List (Nat × Coinflip) → List (String × Int)
  | [] => b
  | kv :: rest =>
    match alGet b kv.2.creator with
    | some c => refundAll (alSet kv.2.creator (c + kv.2.amount) b) rest
    | none => refundAll b rest

/-- The expiry test of the cleanup loop:
`now - data["time"] > EXPIRY_SECONDS`. -/
def cf_expired (now : Nat) (kv : Nat × Coinflip) : Bool :=
  decide (EXPIRY_SECONDS < now - kv.2.time)

/-- `coinflip_cleanup`: refund every coinflip older than `EXPIRY_SECONDS`
and delete it. -/
def coinflip_cleanup (s : CFState) (now : Nat) : CFState :=
  { balances := refundAll s.balances (s.flips.filter (cf_expired now))
    flips := s.flips.filter (fun kv => !cf_expired now kv) }

/-- Total coins in the subsystem: all balances plus all escrowed stakes. -/
def cf_total (s : CFState) : Int :=
  (s.balances.map (fun kv => kv.2)).sum + (s.flips.map (fun kv => kv.2.amount)).sum

/-- Every open coinflip's creator holds a balance entry ("registered
players", which both `cftake` and the cleanup's refund assume). -/
def CFWellFormed (s : CFState) : Prop :=
  ∀ kv ∈ s.flips, (alGet s.balances kv.2.creator).isSome

/-- One external event hitting the coinflip subsystem. -/
inductive CFOp where
  | create (uid : String) (amount : Int) (nowMs : Nat)
  | take (uid : String) (id : Nat) (creatorWins : Bool)
  | cleanup (now : Nat)
deriving DecidableEq, Repr

/-- Apply one event. -/
def cf_apply (s : CFState) : CFOp → CFState
  | CFOp.create uid amount nowMs => cfcreate s uid amount nowMs
  | CFOp.take uid id creatorWins => cftake s uid id creatorWins
  | CFOp.cleanup now => coinflip_cleanup s now

/-- Apply a sequence of events. -/
def cf_run (s : CFState) : List CFOp → CFState
  | [] => s
  | op :: rest => cf_run (cf_apply s op) rest

/-- A sequence is collision-free when no `create` reuses the time-derived
id of a coinflip still open at that point. -/
def cf_safe (s : CFState) : List CFOp → Bool
  | [] => true
  | op :: rest =>
    (match op with
     | CFOp.create _ _ nowMs => (alGet s.flips (cf_id_of_ms nowMs)).isNone
     | _ => true) && cf_safe (cf_apply s op) rest

/-- Shorthand stat record. -/
def mkStats (hp attack defense magic speed : Nat) : Stats :=
  { hp := hp, attack := attack, defense := defense, magic := magic, speed := speed }

/-- Shorthand entity with zero ivs/evs and no lock/shiny/base snapshot. -/
def mkEntity (name uid : String) (level xp : Nat) (stats : Stats) (cur : Nat)
    (moveset : List Move) : Entity :=
  { name := name, unique_id := uid, level := level, xp := xp, shiny := false,
    locked := false, ivs := mkStats 0 0 0 0 0, evs := mkStats 0 0 0 0 0,
    stats := stats, current_hp := cur, moveset := moveset, base_stats := none }

/-- A physical 50-power move used by the concrete battle scenarios. -/
def bashMove : Move := { move := "Bash", type := "Physical", power := some 50, acc := 100 }

/-- A move stored with accuracy 0. -/
def curseMove : Move := { move := "Curse", type := "Physical", power := some 10, acc := 0 }

/-- The attacker of the spec's worked damage example: attack 70, facing
defense 40, using the physical 50-power move. -/
def exAttacker : Entity :=
  mkEntity "Attacker" "ha" 10 0 (mkStats 100 70 40 30 50) 100 [bashMove, curseMove]

/-- The defender of the worked example: defense 40, 200 hp. -/
def exDefender : Entity :=
  mkEntity "Defender" "hd" 10 0 (mkStats 200 60 40 35 45) 200 []

/-- A frail enemy that the 72-damage hit knocks out. -/
def frailEnemy : Entity :=
  mkEntity "Frail" "he" 5 0 (mkStats 60 30 40 20 5) 60 [bashMove]

/-- Base stats used by the concrete progression scenarios. -/
def demoBase : Stats := mkStats 80 80 80 80 80

/-- An entity one threshold short of the level cap: level 99, full hp. -/
def almostCapped : Entity :=
  mkEntity "Vera" "hv" 99 0 (derive_stats demoBase (mkStats 0 0 0 0 0) (mkStats 0 0 0 0 0) 99)
    (derive_stats demoBase (mkStats 0 0 0 0 0) (mkStats 0 0 0 0 0) 99).hp []

/-- An entity already at the level cap with leftover xp. -/
def cappedHero : Entity :=
  mkEntity "Vera" "hv" 100 7 (derive_stats demoBase (mkStats 0 0 0 0 0) (mkStats 0 0 0 0 0) 100)
    (derive_stats demoBase (mkStats 0 0 0 0 0) (mkStats 0 0 0 0 0) 100).hp []

/-- A level-10 hero whose stats were derived from `demoBase`, at full hp,
with no `_base_stats` snapshot yet: the input of the `/elixir` scenario. -/
def elixirHero : Entity :=
  mkEntity "Lio" "hl" 10 0 (derive_stats demoBase (mkStats 0 0 0 0 0) (mkStats 0 0 0 0 0) 10)
    (derive_stats demoBase (mkStats 0 0 0 0 0) (mkStats 0 0 0 0 0) 10).hp []

/-- Base record for the float-rounding scenario. -/
def floatBase : Stats := mkStats 11 11 11 11 11

/-- An entity whose hp rescale hits a float-rounding boundary: old max hp
11, current hp 3, and a level-37 recompute from `floatBase` gives new max
hp 55, so the exact product 55·(3/11) is the integer 15 while the double
product is 14.999999999999998. -/
def floatEnt : Entity :=
  mkEntity "Nix" "hx" 37 0 (mkStats 11 11 11 11 11) 3 []

/-- A locked hero stored in the barracks but not on the active team. -/
def lockedStray : Entity :=
  { mkEntity "Keeper" "h1" 5 0 (mkStats 30 10 10 10 10) 30 [] with locked := true }

/-- A locked hero that is on the active team. -/
def lockedLead : Entity :=
  { mkEntity "Lead" "h2" 5 0 (mkStats 30 10 10 10 10) 30 [] with locked := true }

/-- Player owning `lockedStray` (off-team) and `lockedLead` (on-team). -/
def demoPlayer : Player :=
  { coins := 0, bag := [], pc := [lockedStray, lockedLead], active_team := ["h2"],
    relic_charge := none, respawn_orb := none }

/-- Coinflip state for the id-collision scenario. -/
def collideState : CFState := { balances := [("a", 100), ("b", 100)], flips := [] }

/-- A well-formed coinflip state exercised by the conservation witness. -/
def demoCFState : CFState :=
  { balances := [("a", 100), ("b", 40)], flips := [(7, { creator := "a", amount := 30, time := 0 })] }

/-! ## Helper lemmas -/

@[simp]
theorem recalc_level (ent : Entity) (base : Stats) :
    (recalc_stats_from_base ent base).level = ent.level := rfl

@[simp]
theorem recalc_xp (ent : Entity) (base : Stats) :
    (recalc_stats_from_base ent base).xp = ent.xp := rfl

@[simp]
theorem recalc_name (ent : Entity) (base : Stats) :
    (recalc_stats_from_base ent base).name = ent.name := rfl

theorem recalc_stats_eq (ent : Entity) (base : Stats) :
    (recalc_stats_from_base ent base).stats = derive_stats base ent.ivs ent.evs ent.level := rfl

theorem recalc_current_hp_eq (ent : Entity) (base : Stats) :
    (recalc_stats_from_base ent base).current_hp =
      max 1 (⌊fl64 (fl64 ((derive_stats base ent.ivs ent.evs ent.level).hp : Rat) *
        hp_fraction ent)⌋).toNat :=
  rfl

theorem hp_fraction_nonneg (ent : Entity) : 0 ≤ hp_fraction ent := le_max_left 0 _

theorem hp_fraction_le_one (ent : Entity) : hp_fraction ent ≤ 1 :=
  max_le (by norm_num) (min_le_left 1 _)

theorem calc_hp_ge (base iv ev level : Nat) : level + 10 ≤ calc_hp base iv ev level := by
  simp only [calc_hp]
  omega

/-! ## Lemmas about the binary64 rounding model -/

theorem roundRatEven_ge_floor (q : Rat) : ⌊q⌋ ≤ roundRatEven q := by
  unfold roundRatEven
  split_ifs <;> omega

theorem roundRatEven_le_floor_add_one (q : Rat) : roundRatEven q ≤ ⌊q⌋ + 1 := by
  unfold roundRatEven
  split_ifs <;> omega

theorem le_roundRatEven (q : Rat) : q - 1/2 ≤ (roundRatEven q : Rat) := by
  have h1 := Int.floor_le q
  have h2 := Int.lt_floor_add_one q
  unfold roundRatEven
  split_ifs <;> push_cast <;> linarith

theorem roundRatEven_le (q : Rat) : (roundRatEven q : Rat) ≤ q + 1/2 := by
  have h1 := Int.floor_le q
  have h2 := Int.lt_floor_add_one q
  unfold roundRatEven
  split_ifs <;> push_cast <;> linarith

theorem roundRatEven_intCast (n : Int) : roundRatEven (n : Rat) = n := by
  unfold roundRatEven
  rw [Int.floor_intCast]
  norm_num

theorem roundRatEven_mono {q q' : Rat} (h : q ≤ q') :
    roundRatEven q ≤ roundRatEven q' := by
  rcases lt_or_eq_of_le (Int.floor_le_floor h) with hf | hf
  · have h1 := roundRatEven_le_floor_add_one q
    have h2 := roundRatEven_ge_floor q'
    omega
  · unfold roundRatEven
    rw [hf]
    split_ifs <;> first | omega | linarith

theorem zpow_int_sub_natCast (m n : Nat) :
    (2:Rat) ^ ((m:Int) - n) = 2 ^ m / 2 ^ n := by
  rw [zpow_sub₀ (by norm_num : (2:Rat) ≠ 0), zpow_natCast, zpow_natCast]

theorem qlog2floor_spec (a b : Nat) (ha : 1 ≤ a) (hb : 1 ≤ b) :
    (2:Rat) ^ qlog2floor a b ≤ (a : Rat) / b ∧
      (a : Rat) / b < 2 ^ (qlog2floor a b + 1) := by
  have hA1 : (2:Nat) ^ Nat.log 2 a ≤ a := Nat.pow_log_le_self 2 (by omega)
  have hA2 : a < 2 ^ (Nat.log 2 a + 1) := Nat.lt_pow_succ_log_self (by norm_num) a
  have hB1 : (2:Nat) ^ Nat.log 2 b ≤ b := Nat.pow_log_le_self 2 (by omega)
  have hB2 : b < 2 ^ (Nat.log 2 b + 1) := Nat.lt_pow_succ_log_self (by norm_num) b
  have hbq : (0:Rat) < b := by positivity
  have haq : (0:Rat) < a := by positivity
  have hA1q : (2:Rat) ^ Nat.log 2 a ≤ a := by exact_mod_cast hA1
  have hA2q : (a:Rat) < 2 ^ (Nat.log 2 a + 1) := by exact_mod_cast hA2
  have hB1q : (2:Rat) ^ Nat.log 2 b ≤ b := by exact_mod_cast hB1
  have hB2q : (b:Rat) < 2 ^ (Nat.log 2 b + 1) := by exact_mod_cast hB2
  unfold qlog2floor
  set k0 : Int := (Nat.log 2 a : Int) - (Nat.log 2 b : Int) with hk0
  split_ifs with ht
  · have htq : (b:Rat) * 2 ^ k0.toNat ≤ (a:Rat) * 2 ^ (-k0).toNat := by
      exact_mod_cast ht
    constructor
    · rw [le_div_iff hbq]
      have hsplit : (2:Rat) ^ k0 = 2 ^ k0.toNat / 2 ^ (-k0).toNat := by
        rw [← zpow_int_sub_natCast]
        congr 1
        omega
      rw [hsplit, div_mul_eq_mul_div, div_le_iff (by positivity)]
      calc (2:Rat) ^ k0.toNat * (b:Rat) = (b:Rat) * 2 ^ k0.toNat := by ring
        _ ≤ (a:Rat) * 2 ^ (-k0).toNat := htq
    · rw [div_lt_iff hbq]
      have hsplit : (2:Rat) ^ (k0 + 1) = 2 ^ (Nat.log 2 a + 1) / 2 ^ Nat.log 2 b := by
        rw [← zpow_int_sub_natCast]
        congr 1
        push_cast
        omega
      rw [hsplit, div_mul_eq_mul_div, lt_div_iff (by positivity)]
      calc (a:Rat) * 2 ^ Nat.log 2 b < 2 ^ (Nat.log 2 a + 1) * 2 ^ Nat.log 2 b := by
            exact mul_lt_mul_of_pos_right hA2q (by positivity)
        _ ≤ 2 ^ (Nat.log 2 a + 1) * (b:Rat) := by
            exact mul_le_mul_of_nonneg_left hB1q (by positivity)
  · push_neg at ht
    have htq : (a:Rat) * 2 ^ (-k0).toNat < (b:Rat) * 2 ^ k0.toNat := by
      exact_mod_cast ht
    constructor
    · rw [le_div_iff hbq]
      have hsplit : (2:Rat) ^ (k0 - 1) = 2 ^ Nat.log 2 a / 2 ^ (Nat.log 2 b + 1) := by
        rw [← zpow_int_sub_natCast]
        congr 1
        push_cast
        omega
      rw [hsplit, div_mul_eq_mul_div, div_le_iff (by positivity)]
      have hchain : (2:Rat) ^ Nat.log 2 a * (b:Rat) < (a:Rat) * 2 ^ (Nat.log 2 b + 1) :=
        calc (2:Rat) ^ Nat.log 2 a * (b:Rat) < 2 ^ Nat.log 2 a * 2 ^ (Nat.log 2 b + 1) := by
              exact mul_lt_mul_of_pos_left hB2q (by positivity)
          _ ≤ (a:Rat) * 2 ^ (Nat.log 2 b + 1) := by
              exact mul_le_mul_of_nonneg_right hA1q (by positivity)
      exact le_of_lt hchain
    · rw [div_lt_iff hbq]
      have hsplit : (2:Rat) ^ (k0 - 1 + 1) = 2 ^ k0.toNat / 2 ^ (-k0).toNat := by
        rw [← zpow_int_sub_natCast]
        congr 1
        omega
      rw [hsplit, div_mul_eq_mul_div, lt_div_iff (by positivity)]
      calc (a:Rat) * 2 ^ (-k0).toNat < (b:Rat) * 2 ^ k0.toNat := htq
        _ = (2:Rat) ^ k0.toNat * (b:Rat) := by ring

theorem qlog2floorQ_spec (q : Rat) (hq : 0 < q) :
    (2:Rat) ^ qlog2floorQ q ≤ q ∧ q < 2 ^ (qlog2floorQ q + 1) := by
  have hnum : 0 < q.num := Rat.num_pos.mpr hq
  have h0 : (q.num.toNat : Int) = q.num := Int.toNat_of_nonneg (le_of_lt hnum)
  have hval : ((q.num.toNat : Nat) : Rat) / (q.den : Rat) = q := by
    calc ((q.num.toNat : Nat) : Rat) / (q.den : Rat) = (q.num : Rat) / (q.den : Rat) := by
          congr 1
          exact_mod_cast h0
      _ = q := Rat.num_div_den q
  have h := qlog2floor_spec q.num.toNat q.den (by omega) q.pos
  rw [hval] at h
  exact h

theorem qlog2floorQ_eq (q : Rat) (k : Int) (hq : 0 < q)
    (h1 : (2:Rat) ^ k ≤ q) (h2 : q < 2 ^ (k + 1)) : qlog2floorQ q = k := by
  have hs := qlog2floorQ_spec q hq
  by_contra hne
  rcases lt_or_gt_of_ne hne with hlt | hgt
  · have : (2:Rat) ^ (qlog2floorQ q + 1) ≤ 2 ^ k :=
      zpow_le_zpow_right₀ (by norm_num) (by omega)
    linarith [hs.2]
  · have : (2:Rat) ^ (k + 1) ≤ 2 ^ qlog2floorQ q :=
      zpow_le_zpow_right₀ (by norm_num) (by omega)
    linarith [hs.1]

theorem fl64Pos_le_binade (q : Rat) (hq : 0 < q) :
    fl64Pos q ≤ 2 ^ (qlog2floorQ q + 1) := by
  obtain ⟨hlow, hup⟩ := qlog2floorQ_spec q hq
  set k := qlog2floorQ q with hk
  have upos : (0:Rat) < 2 ^ (k - 52) := zpow_pos (by norm_num) _
  have hqu : q / 2 ^ (k - 52) < 2 ^ (53:Nat) := by
    rw [div_lt_iff upos, ← zpow_natCast (2:Rat) 53, ← zpow_add₀ (by norm_num : (2:Rat) ≠ 0)]
    have h53 : ((53:Nat):Int) + (k - 52) = k + 1 := by omega
    rw [h53]
    exact hup
  have hz : roundRatEven (q / 2 ^ (k - 52)) ≤ 2 ^ (53:Nat) := by
    have h1 := roundRatEven_le (q / 2 ^ (k - 52))
    have h2 : (roundRatEven (q / 2 ^ (k - 52)) : Rat) < ((2 ^ (53:Nat) + 1 : Int) : Rat) := by
      push_cast
      linarith
    have h3 : roundRatEven (q / 2 ^ (k - 52)) < 2 ^ (53:Nat) + 1 := by exact_mod_cast h2
    exact Int.lt_add_one_iff.mp h3
  calc fl64Pos q = (roundRatEven (q / 2 ^ (k - 52)) : Rat) * 2 ^ (k - 52) := rfl
    _ ≤ (2 ^ (53:Nat) : Rat) * 2 ^ (k - 52) := by
        exact mul_le_mul_of_nonneg_right (by exact_mod_cast hz) (le_of_lt upos)
    _ = 2 ^ (k + 1) := by
        rw [← zpow_natCast (2:Rat) 53, ← zpow_add₀ (by norm_num : (2:Rat) ≠ 0)]
        congr 1
        omega

theorem binade_le_fl64Pos (q : Rat) (hq : 0 < q) :
    (2:Rat) ^ qlog2floorQ q ≤ fl64Pos q := by
  obtain ⟨hlow, hup⟩ := qlog2floorQ_spec q hq
  set k := qlog2floorQ q with hk
  have upos : (0:Rat) < 2 ^ (k - 52) := zpow_pos (by norm_num) _
  have hqu : (2:Rat) ^ (52:Nat) ≤ q / 2 ^ (k - 52) := by
    rw [le_div_iff upos, ← zpow_natCast (2:Rat) 52, ← zpow_add₀ (by norm_num : (2:Rat) ≠ 0)]
    have h52 : ((52:Nat):Int) + (k - 52) = k := by omega
    rw [h52]
    exact hlow
  have hz : (2:Int) ^ (52:Nat) ≤ roundRatEven (q / 2 ^ (k - 52)) := by
    have hf : (2:Int) ^ (52:Nat) ≤ ⌊q / 2 ^ (k - 52)⌋ := by
      rw [Int.le_floor]
      exact_mod_cast hqu
    exact le_trans hf (roundRatEven_ge_floor _)
  calc (2:Rat) ^ k = (2 ^ (52:Nat) : Rat) * 2 ^ (k - 52) := by
        rw [← zpow_natCast (2:Rat) 52, ← zpow_add₀ (by norm_num : (2:Rat) ≠ 0)]
        congr 1
        omega
    _ ≤ (roundRatEven (q / 2 ^ (k - 52)) : Rat) * 2 ^ (k - 52) := by
        exact mul_le_mul_of_nonneg_right (by exact_mod_cast hz) (le_of_lt upos)
    _ = fl64Pos q := rfl

theorem fl64Pos_pos (q : Rat) (hq : 0 < q) : 0 < fl64Pos q :=
  lt_of_lt_of_le (zpow_pos (by norm_num) _) (binade_le_fl64Pos q hq)

theorem fl64Pos_mono {q q' : Rat} (hq : 0 < q) (h : q ≤ q') :
    fl64Pos q ≤ fl64Pos q' := by
  have hq' : 0 < q' := lt_of_lt_of_le hq h
  obtain ⟨hlow, hup⟩ := qlog2floorQ_spec q hq
  obtain ⟨hlow2, hup2⟩ := qlog2floorQ_spec q' hq'
  have hk : qlog2floorQ q ≤ qlog2floorQ q' := by
    by_contra hcon
    push_neg at hcon
    have : (2:Rat) ^ (qlog2floorQ q' + 1) ≤ 2 ^ qlog2floorQ q :=
      zpow_le_zpow_right₀ (by norm_num) (by omega)
    linarith
  rcases eq_or_lt_of_le hk with heq | hlt
  · unfold fl64Pos
    rw [← heq]
    have upos : (0:Rat) < 2 ^ (qlog2floorQ q - 52) := zpow_pos (by norm_num) _
    have hmono := roundRatEven_mono ((div_le_div_iff_of_pos_right upos).mpr h)
    exact mul_le_mul_of_nonneg_right (by exact_mod_cast hmono) (le_of_lt upos)
  · calc fl64Pos q ≤ 2 ^ (qlog2floorQ q + 1) := fl64Pos_le_binade q hq
      _ ≤ 2 ^ qlog2floorQ q' := zpow_le_zpow_right₀ (by norm_num) (by omega)
      _ ≤ fl64Pos q' := binade_le_fl64Pos q' hq'

theorem fl64_zero : fl64 0 = 0 := by
  unfold fl64
  norm_num

theorem fl64_mono {q q' : Rat} (h0 : 0 ≤ q) (h : q ≤ q') : fl64 q ≤ fl64 q' := by
  rcases eq_or_lt_of_le h0 with hz | hpos
  · rw [← hz, fl64_zero]
    rcases eq_or_lt_of_le (le_trans h0 h) with hz2 | hpos2
    · rw [← hz2, fl64_zero]
    · unfold fl64
      rw [if_pos hpos2]
      exact le_of_lt (fl64Pos_pos q' hpos2)
  · have hpos2 : 0 < q' := lt_of_lt_of_le hpos h
    unfold fl64
    rw [if_pos hpos, if_pos hpos2]
    exact fl64Pos_mono hpos h

theorem fl64_nonneg {q : Rat} (h : 0 ≤ q) : 0 ≤ fl64 q := by
  have := fl64_mono (le_refl 0) h
  rwa [fl64_zero] at this

theorem fl64_natCast (m : Nat) (hm : m < 2 ^ 53) : fl64 (m : Rat) = m := by
  rcases Nat.eq_zero_or_pos m with hz | hpos
  · rw [hz]
    push_cast
    exact fl64_zero
  · have hq : (0:Rat) < m := by exact_mod_cast hpos
    unfold fl64
    rw [if_pos hq]
    have hL : Nat.log 2 m ≤ 52 := by
      have := Nat.log_lt_of_lt_pow (by omega : m ≠ 0) hm
      omega
    have hk : qlog2floorQ (m : Rat) = (Nat.log 2 m : Int) :=
      qlog2floorQ_eq _ _ hq
        (by
          rw [zpow_natCast]
          exact_mod_cast Nat.pow_log_le_self 2 (by omega : m ≠ 0))
        (by
          have h2 : ((Nat.log 2 m : Int) + 1) = ((Nat.log 2 m + 1 : Nat) : Int) := by push_cast; ring
          rw [h2, zpow_natCast]
          exact_mod_cast Nat.lt_pow_succ_log_self (by norm_num) m)
    unfold fl64Pos
    rw [hk]
    have hdiv : (m : Rat) / 2 ^ ((Nat.log 2 m : Int) - 52) =
        (((m * 2 ^ (52 - Nat.log 2 m) : Nat) : Int) : Rat) := by
      rw [div_eq_iff (zpow_ne_zero _ (by norm_num : (2:Rat) ≠ 0))]
      push_cast
      rw [mul_assoc, ← zpow_natCast (2:Rat) (52 - Nat.log 2 m),
        ← zpow_add₀ (by norm_num : (2:Rat) ≠ 0)]
      have : ((52 - Nat.log 2 m : Nat) : Int) + ((Nat.log 2 m : Int) - 52) = 0 := by omega
      rw [this, zpow_zero, mul_one]
    rw [hdiv, roundRatEven_intCast]
    push_cast
    rw [mul_assoc, ← zpow_natCast (2:Rat) (52 - Nat.log 2 m),
      ← zpow_add₀ (by norm_num : (2:Rat) ≠ 0)]
    have : ((52 - Nat.log 2 m : Nat) : Int) + ((Nat.log 2 m : Int) - 52) = 0 := by omega
    rw [this, zpow_zero, mul_one]

/-! ## C1 -/

/-- Claim C1: for every move that connects (passes the accuracy check) and
has numeric power, `resolve_move` deals
`max(1, power + floor(actorMagic/2) - floor(defenderDefense/3))` damage for
magical-type moves and the same with the attack stat otherwise, subtracts it
from the defender's current hp floored at 0, and the damage is always ≥ 1;
in particular attack 70 with a physical 50-power move against defense 40
deals exactly 72 damage. -/
theorem C1_resolve_move_damage :
    (∀ (attacker defender : Entity) (mvName : String) (roll : Nat) (mv : Move) (p : Int),
      find_move attacker.moveset mvName = some mv →
      roll ≤ acc_eff mv →
      mv.power = some p →
      resolve_move attacker defender mvName roll =
        (MoveOutcome.hit (damage_calc mv.type p attacker.stats defender.stats).toNat,
          { defender with current_hp :=
              defender.current_hp -
                (damage_calc mv.type p attacker.stats defender.stats).toNat }) ∧
      (mv.type = "Magical" →
        damage_calc mv.type p attacker.stats defender.stats =
          max 1 (p + (attacker.stats.magic / 2 : Nat) -
            ((defender.stats.defense / 3 : Nat) : Int))) ∧
      (mv.type ≠ "Magical" →
        damage_calc mv.type p attacker.stats defender.stats =
          max 1 (p + (attacker.stats.attack / 2 : Nat) -
            ((defender.stats.defense / 3 : Nat) : Int))) ∧
      1 ≤ (damage_calc mv.type p attacker.stats defender.stats).toNat ∧
      ((defender.current_hp -
          (damage_calc mv.type p attacker.stats defender.stats).toNat : Nat) : Int) =
        max ((defender.current_hp : Int) -
          (damage_calc mv.type p attacker.stats defender.stats).toNat) 0) ∧
    resolve_move exAttacker exDefender "Bash" 1 =
      (MoveOutcome.hit 72, { exDefender with current_hp := 128 }) := by
  constructor
  · intro attacker defender mvName roll mv p hfind hacc hpow
    refine ⟨?_, ?_, ?_, ?_, by omega⟩
    · simp only [resolve_move, hfind, hpow]
      rw [if_neg (by omega)]
    · intro ht
      simp [damage_calc, ht]
    · intro ht
      simp [damage_calc, ht]
    · have h1 : (1 : Int) ≤ damage_calc mv.type p attacker.stats defender.stats :=
        le_max_left 1 _
      omega
  · decide

/-- Witness for C1 at the worked example: the hypotheses (move found,
accuracy passed, numeric power) hold and the hit deals 72 damage. -/
theorem C1_witness :
    resolve_move exAttacker exDefender "Bash" 1 =
      (MoveOutcome.hit (damage_calc "Physical" 50 exAttacker.stats exDefender.stats).toNat,
        { exDefender with current_hp :=
            exDefender.current_hp -
              (damage_calc "Physical" 50 exAttacker.stats exDefender.stats).toNat }) ∧
    1 ≤ (damage_calc "Physical" 50 exAttacker.stats exDefender.stats).toNat := by
  have h := C1_resolve_move_damage.1 exAttacker exDefender "Bash" 1 bashMove 50
    (by decide) (by decide) (by decide)
  exact ⟨h.1, h.2.2.2.1⟩

/-! ## C4 -/

/-- Claim C4 counterexample: a move stored with accuracy 0 does not miss on
the roll 1 ∈ [1,100] (the falsy `or` chain replaces 0 by the default 100),
refuting "a move whose accuracy value is 0 misses on every accuracy roll in
[1,100]". -/
theorem C4_counterexample :
    (∃ mv, find_move exAttacker.moveset "Curse" = some mv ∧ mv.acc = 0) ∧
    (resolve_move exAttacker exDefender "Curse" 1).1 ≠ MoveOutcome.missed := by
  exact ⟨⟨curseMove, by decide, by decide⟩, by decide⟩

/-- Claim C4 (amended): a move whose accuracy value is 100 never misses for
any roll in [1,100]; a move whose stored accuracy value is 0 is read back
through `acc_raw = mvdata.get("acc") or ... or 100`, where 0 is falsy, so
its effective accuracy is also 100 and it likewise never misses. -/
theorem C4_amended :
    ∀ (attacker defender : Entity) (mvName : String) (roll : Nat) (mv : Move),
      find_move attacker.moveset mvName = some mv →
      1 ≤ roll → roll ≤ 100 →
      (mv.acc = 100 → (resolve_move attacker defender mvName roll).1 ≠ MoveOutcome.missed) ∧
      (mv.acc = 0 → (resolve_move attacker defender mvName roll).1 ≠ MoveOutcome.missed) := by
  intro attacker defender mvName roll mv hfind h1 h100
  have hgen : acc_eff mv = 100 → (resolve_move attacker defender mvName roll).1 ≠ MoveOutcome.missed := by
    intro heff
    simp only [resolve_move, hfind]
    rw [if_neg (by omega)]
    cases mv.power <;> simp
  constructor
  · intro h
    exact hgen (by simp [acc_eff, h])
  · intro h
    exact hgen (by simp [acc_eff, h])

/-- Witness for the amended C4 at concrete inputs: the 100-accuracy move
"Bash" and the 0-accuracy move "Curse" both fail to miss on roll 1. -/
theorem C4_amended_witness :
    (resolve_move exAttacker exDefender "Bash" 1).1 ≠ MoveOutcome.missed ∧
    (resolve_move exAttacker exDefender "Curse" 1).1 ≠ MoveOutcome.missed := by
  refine ⟨?_, ?_⟩
  · exact (C4_amended exAttacker exDefender "Bash" 1 bashMove (by decide) (by decide)
      (by decide)).1 (by decide)
  · exact (C4_amended exAttacker exDefender "Curse" 1 curseMove (by decide) (by decide)
      (by decide)).2 (by decide)

/-! ## C8 -/

/-- Claim C8: the shiny rates per context.  The starter (1/5000 Bernoulli
outcome passed through), chest-epic (roll of 1 on a d20) and special-summon
(always shiny) contexts behave as claimed, but a wild hero encounter is
*never* shiny for any outcome of the random source: `/explore` calls
`build_instance_from_template(template)` with `is_hero` left at `False`, so
`shiny = is_hero and (random.random() < 1/5000)` is always `False` and the
1/4096 shiny flag rolled on the template is discarded. -/
theorem C8_wild_hero_never_shiny :
    (∀ (t : Template) (rolls : GenRolls), (explore_hero_instance t rolls).shiny = false) ∧
    (∀ (t : Template) (lvl : Nat) (rolls : GenRolls), (summon_instance t lvl rolls).shiny = true) ∧
    (∀ roll : Bool, starter_shiny roll = roll) ∧
    chest_hero_shiny 1 = true ∧ chest_hero_shiny 2 = false := by
  refine ⟨?_, ?_, ?_, by decide, by decide⟩
  · intro t rolls
    simp [explore_hero_instance, build_instance_from_template]
  · intro t lvl rolls
    simp [summon_instance]
  · intro roll
    simp [starter_shiny]

/-! ## C9 -/

/-- Claim C9: the slots and auction boundaries do *not* reject non-positive
amounts.  A bet of -100 with balance 0 passes the only check
(`coins < amount`) and the deduction raises the balance to 100; an
`/ahsell` with amount -5 passes `bag[key] < amount` and both mutates the
bag upward and lists a negative-amount auction.  Only `/cfcreate` rejects
non-positive amounts, and `/ahsell` does reject unsupported durations
before mutating. -/
theorem C9_negative_amounts_accepted :
    slots_bet 0 (-100) = some 100 ∧
    ahsell "u" [("Potion", 3)] "Potion" (-5) 10 12 =
      some ([("Potion", 8)],
        { seller := "u", item := "Potion", amount := -5, price := 10, hours := 12 }) ∧
    cfcreate { balances := [("u", 50)], flips := [] } "u" (-7) 0 =
      { balances := [("u", 50)], flips := [] } ∧
    cfcreate { balances := [("u", 50)], flips := [] } "u" 0 0 =
      { balances := [("u", 50)], flips := [] } ∧
    ahsell "u" [("Potion", 3)] "Potion" 1 10 13 = none := by
  refine ⟨by decide, by decide, by decide, by decide, by decide⟩

/-! ## C5 -/

/-- Claim C5: a relic activated by `/use` is stored under the
`"relic_charge"` key, but the reward settlement reads and increments only
the `"respawn_orb"` key, which the `/use` flow never writes.  Hence for any
player without a `respawn_orb` record, activating a relic and then settling
an enemy defeat leaves the record completely unchanged: the kill counter
stays at 0 and no conversion to a filled relic ever happens. -/
theorem C5_relic_charge_never_incremented :
    ∀ (p : Player) (item hero : String),
      p.respawn_orb = none →
      rewards_relic_step (use_confirm p item hero) = use_confirm p item hero ∧
      (use_confirm p item hero).relic_charge =
        some { item := item, hero := hero, kills := 0, goal := 100 } := by
  intro p item hero h
  constructor
  · simp [rewards_relic_step, use_confirm, h]
  · simp [use_confirm]

/-- Witness for C5: a concrete player activates a relic and defeats an
enemy; the relic's kill counter is still 0 afterwards. -/
theorem C5_witness :
    rewards_relic_step (use_confirm demoPlayer "Relic of Radiant Souls" "Aurelia") =
      use_confirm demoPlayer "Relic of Radiant Souls" "Aurelia" ∧
    (use_confirm demoPlayer "Relic of Radiant Souls" "Aurelia").relic_charge =
      some { item := "Relic of Radiant Souls", hero := "Aurelia", kills := 0, goal := 100 } :=
  C5_relic_charge_never_incremented demoPlayer "Relic of Radiant Souls" "Aurelia" (by decide)

/-! ## C7 -/

/-- Claim C7: `/partyremove` does refuse to remove a locked hero from the
active team, but the barracks-clear confirm keeps exactly the pc entries
whose id is on the active team, with no locked check: the locked off-team
hero `lockedStray` is deleted from the roster, and the deleted hero was
locked — contradicting "a locked Entity cannot be removed from roster". -/
theorem C7_locked_hero_deleted_by_clear :
    lockedStray.locked = true ∧
    lockedStray ∈ demoPlayer.pc ∧
    (barracks_clear demoPlayer).pc = [lockedLead] ∧
    (∀ (p : Player) (identifier : String) (h : Entity),
      partyremove_find p identifier = some h → h.locked = true →
      partyremove p identifier = p) := by
  refine ⟨by decide, by decide, by decide, ?_⟩
  intro p identifier h hfind hlock
  simp [partyremove, hfind, hlock]

/-- Witness for C7's quantified part: removing the locked on-team hero
`lockedLead` by its slot number leaves the player record unchanged. -/
theorem C7_witness :
    partyremove demoPlayer "1" = demoPlayer := by
  exact C7_locked_hero_deleted_by_clear.2.2.2 demoPlayer "1" lockedLead (by decide) (by decide)

/-! ## C2 -/

/-- Claim C2: the strictly faster side acts first; on a speed tie the first
mover is the coin's choice, with the two coin outcomes giving exactly the
two orders (so a fair coin makes the choice unbiased); and the execution
loop stops as soon as either side's hp reaches 0 after an action, so no
further move of that turn executes by or against the defeated side. -/
theorem C2_turn_order_and_halt :
    ∀ (pS eS : Nat) (coin : Bool) (mvP mvE : String),
      (eS < pS → battle_order pS eS coin mvP mvE =
        [(Side.player, mvP), (Side.enemy, mvE)]) ∧
      (pS < eS → battle_order pS eS coin mvP mvE =
        [(Side.enemy, mvE), (Side.player, mvP)]) ∧
      (pS = eS → battle_order pS eS coin mvP mvE =
        if coin then [(Side.player, mvP), (Side.enemy, mvE)]
        else [(Side.enemy, mvE), (Side.player, mvP)]) ∧
      (∀ (p e : Entity) (act : Side × String) (rest : List (Side × String))
          (rolls : List Nat),
        (exec_one p e act (rolls.headD 1)).2.1.current_hp = 0 ∨
          (exec_one p e act (rolls.headD 1)).1.current_hp = 0 →
        run_turn p e (act :: rest) rolls = exec_one p e act (rolls.headD 1)) := by
  intro pS eS coin mvP mvE
  refine ⟨?_, ?_, ?_, ?_⟩
  · intro h
    simp [battle_order, h]
  · intro h
    have h2 : ¬ eS < pS := by omega
    simp [battle_order, h, h2]
  · intro h
    simp [battle_order, h]
  · intro p e act rest rolls h
    rw [run_turn, if_pos h]

/-- Witness for C2: the faster player moves first in a concrete order, and
a concrete turn in which the first action knocks the enemy to 0 hp ends
without the enemy acting. -/
theorem C2_witness :
    battle_order 50 45 true "Bash" "Bite" = [(Side.player, "Bash"), (Side.enemy, "Bite")] ∧
    run_turn exAttacker frailEnemy [(Side.player, "Bash"), (Side.enemy, "Bash")] [1, 1] =
      exec_one exAttacker frailEnemy (Side.player, "Bash") 1 := by
  constructor
  · exact (C2_turn_order_and_halt 50 45 true "Bash" "Bite").1 (by decide)
  · exact (C2_turn_order_and_halt 0 0 true "" "").2.2.2 exAttacker frailEnemy
      (Side.player, "Bash") [(Side.enemy, "Bash")] [1, 1] (by decide)

/-! ## C3 -/

/-- Full characterization of the level-up while loop, by induction on the
fuel: the level only rises and stays ≤ 100, on exit below the cap the xp is
below the next threshold, one level-up event is logged per level gained,
and the xp decreases by exactly the sum of the thresholds crossed. -/
theorem award_loop_go_spec (fuel : Nat) :
    ∀ (ent : Entity) (bp : Entity → Stats),
      ent.level ≤ 100 → 100 ≤ ent.level + fuel →
      ent.level ≤ (award_loop_go fuel ent bp).1.level ∧
      (award_loop_go fuel ent bp).1.level ≤ 100 ∧
      ((award_loop_go fuel ent bp).1.level < 100 →
        (award_loop_go fuel ent bp).1.xp <
          entity_xp_required ((award_loop_go fuel ent bp).1.level + 1)) ∧
      (award_loop_go fuel ent bp).1.name = ent.name ∧
      (award_loop_go fuel ent bp).2 =
        (List.range' (ent.level + 1)
          ((award_loop_go fuel ent bp).1.level - ent.level)).map
          (fun l => LogEvent.levelUp ent.name l) ∧
      ent.xp = (award_loop_go fuel ent bp).1.xp +
        ((List.range' (ent.level + 1)
          ((award_loop_go fuel ent bp).1.level - ent.level)).map
          entity_xp_required).sum := by
  induction fuel with
  | zero =>
    intro ent bp hle hfuel
    have hlevel : ent.level = 100 := by omega
    simp [award_loop_go, hlevel]
  | succ fuel ih =>
    intro ent bp hle hfuel
    by_cases hguard : entity_xp_required (ent.level + 1) ≤ ent.xp ∧ ent.level < 100
    · have hunfold : award_loop_go (fuel + 1) ent bp =
          ((award_loop_go fuel (levelUpStep ent bp) bp).1,
            LogEvent.levelUp ent.name (ent.level + 1) ::
              (award_loop_go fuel (levelUpStep ent bp) bp).2) := by
        rw [award_loop_go, if_pos hguard]
        rfl
      obtain ⟨hreq, hlt⟩ := hguard
      have hsl : (levelUpStep ent bp).level = ent.level + 1 := rfl
      have hsx : (levelUpStep ent bp).xp = ent.xp - entity_xp_required (ent.level + 1) := rfl
      have hsn : (levelUpStep ent bp).name = ent.name := rfl
      obtain ⟨s1, s2, s3, s4, s5, s6⟩ :=
        ih (levelUpStep ent bp) bp (by omega) (by omega)
      rw [hsl] at s1
      rw [hsl, hsn] at s5
      rw [hsl, hsx] at s6
      rw [hunfold]
      dsimp only
      have hlt2 : ent.level < (award_loop_go fuel (levelUpStep ent bp) bp).1.level := by
        omega
      have hsplit : (award_loop_go fuel (levelUpStep ent bp) bp).1.level - ent.level =
          ((award_loop_go fuel (levelUpStep ent bp) bp).1.level - (ent.level + 1)) + 1 := by
        omega
      refine ⟨by omega, s2, s3, by rw [hsn] at s4; exact s4, ?_, ?_⟩
      · simp only [hsplit, List.range'_succ, List.map_cons]
        rw [s5]
      · simp only [hsplit, List.range'_succ, List.map_cons, List.sum_cons]
        omega
    · have hunfold : award_loop_go (fuel + 1) ent bp = (ent, []) := by
        rw [award_loop_go, if_neg hguard]
      rw [hunfold]
      dsimp only
      refine ⟨le_refl _, hle, ?_, rfl, by simp, by simp⟩
      intro h
      omega

/-- Claim C3 counterexample: an entity at level 99 with 0 xp is awarded one
xp more than the level-100 threshold (115000); it is capped at level 100
afterwards but its xp is 1, not 0 — refuting "once the entity is capped at
level 100 its xp is held at 0" as an immediate postcondition. -/
theorem C3_counterexample :
    (award_entity_xp almostCapped 115001 (fun _ => demoBase)).1.level = 100 ∧
    (award_entity_xp almostCapped 115001 (fun _ => demoBase)).1.xp = 1 := by
  decide

/-- Claim C3 (amended): `award_entity_xp` never raises the level above 100;
called on an entity already at level 100 it sets the xp to 0, logs a single
"maxed" event and changes nothing else; otherwise it adds the gain and runs
the cascade, which only raises the level, leaves the xp below the next
threshold unless the cap was reached, logs one level-up event per level
gained, and consumes exactly the crossed thresholds — leftover xp above a
capping level-up is retained until the next call zeroes it. -/
theorem C3_amended :
    ∀ (ent : Entity) (gain : Nat) (bp : Entity → Stats),
      ent.level ≤ 100 →
      (award_entity_xp ent gain bp).1.level ≤ 100 ∧
      (ent.level = 100 →
        award_entity_xp ent gain bp = ({ ent with xp := 0 }, [LogEvent.maxed ent.name])) ∧
      (ent.level < 100 →
        ent.level ≤ (award_entity_xp ent gain bp).1.level ∧
        ((award_entity_xp ent gain bp).1.level < 100 →
          (award_entity_xp ent gain bp).1.xp <
            entity_xp_required ((award_entity_xp ent gain bp).1.level + 1)) ∧
        (award_entity_xp ent gain bp).2 =
          (List.range' (ent.level + 1)
            ((award_entity_xp ent gain bp).1.level - ent.level)).map
            (fun l => LogEvent.levelUp ent.name l) ∧
        ent.xp + gain = (award_entity_xp ent gain bp).1.xp +
          ((List.range' (ent.level + 1)
            ((award_entity_xp ent gain bp).1.level - ent.level)).map
            entity_xp_required).sum) := by
  intro ent gain bp hle
  by_cases hcap : 100 ≤ ent.level
  · have hlevel : ent.level = 100 := by omega
    refine ⟨?_, ?_, ?_⟩
    · simp [award_entity_xp, hcap]
    · intro _
      simp only [award_entity_xp, if_pos hcap]
      have : ({ ent with level := 100, xp := 0 } : Entity) = { ent with xp := 0 } := by
        cases ent
        simp_all
      rw [this]
    · intro h
      omega
  · have hlt : ent.level < 100 := by omega
    have hrw : award_entity_xp ent gain bp =
        award_loop_go (100 - ent.level) { ent with xp := ent.xp + gain } bp := by
      simp [award_entity_xp, hcap, award_loop]
    set ent' : Entity := { ent with xp := ent.xp + gain } with hent
    have hspec := award_loop_go_spec (100 - ent.level) ent' bp (by simp [hent]; omega)
      (by simp [hent]; omega)
    obtain ⟨s1, s2, s3, s4, s5, s6⟩ := hspec
    rw [hrw]
    have hlv : ent'.level = ent.level := rfl
    have hxp : ent'.xp = ent.xp + gain := rfl
    refine ⟨s2, by intro h; omega, ?_⟩
    intro _
    rw [hlv] at s1 s5 s6
    rw [hxp] at s6
    exact ⟨s1, s3, s5, s6⟩

/-- Witness for the amended C3: an entity already at the cap with leftover
xp has the xp zeroed and a single "maxed" event logged. -/
theorem C3_amended_witness :
    award_entity_xp cappedHero 5 (fun _ => demoBase) =
      ({ cappedHero with xp := 0 }, [LogEvent.maxed "Vera"]) := by
  exact (C3_amended cappedHero 5 (fun _ => demoBase) (by decide)).2.1 (by decide)

/-! ## C6 -/

theorem fl64_div_3_11 : fl64 ((3:Rat)/11) = 4913017775313268/2^54 := by
  have hq : (0:Rat) < 3/11 := by norm_num
  have hk : qlog2floorQ ((3:Rat)/11) = -2 :=
    qlog2floorQ_eq _ (-2) hq (by norm_num) (by norm_num)
  unfold fl64
  rw [if_pos hq]
  unfold fl64Pos
  rw [hk]
  have hdiv : (3:Rat)/11 / 2 ^ ((-2:Int) - 52) = 54043195528445952/11 := by norm_num
  rw [hdiv]
  have hfloor : ⌊(54043195528445952:Rat)/11⌋ = 4913017775313268 := by
    rw [Int.floor_eq_iff]
    constructor <;> norm_num
  unfold roundRatEven
  rw [hfloor]
  rw [if_pos (by push_cast; norm_num :
    (54043195528445952:Rat)/11 - ((4913017775313268:Int):Rat) < 1/2)]
  push_cast
  norm_num

theorem fl64_mul_55_frac :
    fl64 ((55:Rat) * (4913017775313268/2^54)) = 8444249301319679/2^49 := by
  have hq : (0:Rat) < 55 * (4913017775313268/2^54) := by norm_num
  have hk : qlog2floorQ ((55:Rat) * (4913017775313268/2^54)) = 3 :=
    qlog2floorQ_eq _ 3 hq (by norm_num) (by norm_num)
  unfold fl64
  rw [if_pos hq]
  unfold fl64Pos
  rw [hk]
  have hdiv : (55:Rat) * (4913017775313268/2^54) / 2 ^ ((3:Int) - 52) =
      67553994410557435/8 := by norm_num
  rw [hdiv]
  have hfloor : ⌊(67553994410557435:Rat)/8⌋ = 8444249301319679 := by
    rw [Int.floor_eq_iff]
    constructor <;> norm_num
  unfold roundRatEven
  rw [hfloor]
  rw [if_pos (by push_cast; norm_num :
    (67553994410557435:Rat)/8 - ((8444249301319679:Int):Rat) < 1/2)]
  push_cast
  norm_num

theorem hp_fraction_floatEnt :
    hp_fraction floatEnt = 4913017775313268/2^54 := by
  have h1 : ((floatEnt.current_hp : Nat) : Rat) / ((old_max_hp floatEnt : Nat) : Rat) =
      3/11 := by
    norm_num [floatEnt, mkEntity, mkStats, old_max_hp]
  unfold hp_fraction
  rw [h1, fl64_div_3_11, min_eq_right (by norm_num), max_eq_right (by norm_num)]

/-- Claim C6 (amended): on every level-change recompute, the stat block is
derived by the StatEngine formulas from the base record *passed in* with
the entity's unchanged ivs/evs, and the new current hp is
`max(1, int(newMaxHp * oldFraction))` computed in IEEE binary64 — the
clamped fraction is the double nearest to oldCur/oldMax and the product is
rounded once more — which can land one below the exact
`max(1, floor(newMaxHp * oldFraction))` when the exact product is an
integer.  The result is never below 1 and, for any max hp below 2^53
(far above anything the stat formulas produce), never above the new max
hp.  The awardXp path passes the template base stats, but `/elixir` passes
a snapshot of the hero's *current derived stats* (taken on first elixir
use), not the template base/IV/EV. -/
theorem C6_amended :
    ∀ (ent : Entity) (base : Stats),
      (recalc_stats_from_base ent base).stats =
        derive_stats base ent.ivs ent.evs ent.level ∧
      (recalc_stats_from_base ent base).current_hp =
        max 1 (⌊fl64 (fl64 ((derive_stats base ent.ivs ent.evs ent.level).hp : Rat) *
          hp_fraction ent)⌋).toNat ∧
      1 ≤ (recalc_stats_from_base ent base).current_hp ∧
      ((derive_stats base ent.ivs ent.evs ent.level).hp < 2 ^ 53 →
        (recalc_stats_from_base ent base).current_hp ≤
          (recalc_stats_from_base ent base).stats.hp) ∧
      (∀ (hero : Entity) (k : Nat),
        (elixir_levelup hero k).stats =
          derive_stats (hero.base_stats.getD hero.stats) hero.ivs hero.evs
            (hero.level + k)) := by
  intro ent base
  refine ⟨recalc_stats_eq ent base, recalc_current_hp_eq ent base, le_max_left 1 _, ?_, ?_⟩
  · intro h53
    rw [recalc_current_hp_eq, recalc_stats_eq]
    set M := (derive_stats base ent.ivs ent.evs ent.level).hp with hM
    have hM1 : 10 ≤ M := by
      have := calc_hp_ge base.hp ent.ivs.hp ent.evs.hp ent.level
      simp only [hM, derive_stats]
      omega
    have hfl : fl64 (M : Rat) = M := fl64_natCast M h53
    have hfrac1 := hp_fraction_le_one ent
    have hfrac0 := hp_fraction_nonneg ent
    have h0 : (0:Rat) ≤ fl64 (M:Rat) * hp_fraction ent := by
      rw [hfl]
      exact mul_nonneg (by positivity) hfrac0
    have hprod : fl64 (M:Rat) * hp_fraction ent ≤ (M:Rat) := by
      rw [hfl]
      exact mul_le_of_le_one_right (by positivity) hfrac1
    have hP : fl64 (fl64 (M:Rat) * hp_fraction ent) ≤ (M:Rat) :=
      calc fl64 (fl64 (M:Rat) * hp_fraction ent) ≤ fl64 (M:Rat) := fl64_mono h0 hprod
        _ = M := hfl
    have hfloor : ⌊fl64 (fl64 (M:Rat) * hp_fraction ent)⌋ ≤ (M:Int) :=
      calc ⌊fl64 (fl64 (M:Rat) * hp_fraction ent)⌋ ≤ ⌊(M:Rat)⌋ := Int.floor_le_floor hP
        _ = M := Int.floor_natCast M
    have htn : (⌊fl64 (fl64 (M:Rat) * hp_fraction ent)⌋).toNat ≤ M := Int.toNat_le.mpr hfloor
    omega
  · intro hero k
    cases hb : hero.base_stats with
    | none => simp [elixir_levelup, hb, recalc_stats_eq]
    | some b => simp [elixir_levelup, hb, recalc_stats_eq]

/-- Witness for the amended C6 at a concrete recompute: the hypotheses
hold and the rescaled hp respects the new max. -/
theorem C6_witness :
    (recalc_stats_from_base elixirHero demoBase).current_hp ≤
      (recalc_stats_from_base elixirHero demoBase).stats.hp :=
  (C6_amended elixirHero demoBase).2.2.2.1 (by decide)

/-- Claim C6 counterexample.  Two independent refutations of the original
claim: (a) `elixirHero`'s stats are exactly the StatEngine derivation from
the template base `demoBase` at level 10, yet after one `/elixir` level-up
the recompute treats those *derived* stats as the base, so the new attack
stat (9) differs from the StatEngine value from the unchanged template
base at level 11 (22); (b) on `floatEnt` (old max hp 11, current hp 3,
new max hp 55) the source computes `int(55 * (3/11))` in binary64, giving
`int(14.999999999999998) = 14`, while the claimed exact formula
`max(1, floor(newMaxHp * oldFraction))` gives 15. -/
theorem C6_counterexample :
    elixirHero.stats = derive_stats demoBase elixirHero.ivs elixirHero.evs elixirHero.level ∧
    (elixir_levelup elixirHero 1).stats.attack = 9 ∧
    calc_stat demoBase.attack elixirHero.ivs.attack elixirHero.evs.attack
      (elixirHero.level + 1) = 22 ∧
    (recalc_stats_from_base floatEnt floatBase).stats.hp = 55 ∧
    (recalc_stats_from_base floatEnt floatBase).current_hp = 14 ∧
    max 1 (⌊((recalc_stats_from_base floatEnt floatBase).stats.hp : Rat) *
      (max 0 (min 1 ((floatEnt.current_hp : Rat) / (old_max_hp floatEnt : Rat))))⌋).toNat
      = 15 := by
  have hderive : (derive_stats floatBase floatEnt.ivs floatEnt.evs floatEnt.level).hp = 55 := by
    decide
  refine ⟨by decide, by decide, by decide, by decide, ?_, ?_⟩
  · rw [recalc_current_hp_eq, hderive, hp_fraction_floatEnt]
    have h55 : fl64 ((55:Nat) : Rat) = 55 := by
      have h := fl64_natCast 55 (by norm_num)
      rw [h]
      norm_num
    rw [h55, fl64_mul_55_frac]
    have hfloor : ⌊(8444249301319679:Rat)/2^49⌋ = 14 := by
      rw [Int.floor_eq_iff]
      constructor <;> norm_num
    rw [hfloor]
    rfl
  · have hhp : (recalc_stats_from_base floatEnt floatBase).stats.hp = 55 := by decide
    have hq : ((floatEnt.current_hp : Nat) : Rat) / ((old_max_hp floatEnt : Nat) : Rat) =
        3/11 := by
      norm_num [floatEnt, mkEntity, mkStats, old_max_hp]
    rw [hhp, hq, min_eq_right (by norm_num : (3/11:Rat) ≤ 1),
      max_eq_right (by norm_num : (0:Rat) ≤ 3/11)]
    have h15 : ((55:Nat) : Rat) * (3/11) = ((15:Int) : Rat) := by norm_num
    rw [h15, Int.floor_intCast]
    rfl

/-! ## C10: association-list lemmas -/

section AssocLemmas

variable {κ β : Type} [DecidableEq κ]

theorem alGet_alSet (k j : κ) (v : β) (l : List (κ × β)) :
    alGet (alSet k v l) j = if j = k then some v else alGet l j := by
  induction l with
  | nil =>
    by_cases h : j = k
    · subst h
      simp [alSet, alGet]
    · simp [alSet, alGet, h, Ne.symm h]
  | cons hd tl ih =>
    obtain ⟨k', v'⟩ := hd
    by_cases hk : k' = k
    · subst hk
      by_cases hj : j = k'
      · subst hj
        simp [alSet, alGet]
      · simp [alSet, alGet, hj, Ne.symm hj]
    · by_cases hj : j = k'
      · subst hj
        simp [alSet, alGet, hk, Ne.symm hk]
      · simp [alSet, alGet, hk, hj, Ne.symm hj, ih]

theorem alGet_mem (l : List (κ × β)) (k : κ) (v : β) (h : alGet l k = some v) :
    (k, v) ∈ l := by
  induction l with
  | nil => simp [alGet] at h
  | cons hd tl ih =>
    obtain ⟨k', v'⟩ := hd
    by_cases hk : k' = k
    · subst hk
      simp [alGet] at h
      simp [h]
    · simp [alGet, hk] at h
      exact List.mem_cons_of_mem _ (ih h)

theorem mem_alSet (k : κ) (v : β) (l : List (κ × β)) (kv : κ × β)
    (h : kv ∈ alSet k v l) : kv = (k, v) ∨ kv ∈ l := by
  induction l with
  | nil => simpa [alSet] using h
  | cons hd tl ih =>
    obtain ⟨k', v'⟩ := hd
    by_cases hk : k' = k
    · subst hk
      simp [alSet] at h
      rcases h with h | h
      · exact Or.inl (by simp [h])
      · exact Or.inr (List.mem_cons_of_mem _ h)
    · simp [alSet, hk] at h
      rcases h with h | h
      · exact Or.inr (by simp [h])
      · rcases ih h with h2 | h2
        · exact Or.inl h2
        · exact Or.inr (List.mem_cons_of_mem _ h2)

theorem mem_alErase (k : κ) (l : List (κ × β)) (kv : κ × β)
    (h : kv ∈ alErase k l) : kv ∈ l := by
  induction l with
  | nil => simp [alErase] at h
  | cons hd tl ih =>
    obtain ⟨k', v'⟩ := hd
    by_cases hk : k' = k
    · subst hk
      simp [alErase] at h
      exact List.mem_cons_of_mem _ h
    · simp [alErase, hk] at h
      rcases h with h | h
      · simp [h]
      · exact List.mem_cons_of_mem _ (ih h)

theorem alGet_isSome_alSet (k j : κ) (v : β) (l : List (κ × β))
    (h : (alGet l j).isSome) : (alGet (alSet k v l) j).isSome := by
  rw [alGet_alSet]
  by_cases hj : j = k
  · simp [hj]
  · simpa [hj] using h

theorem sum_alSet_present (f : β → Int) (l : List (κ × β)) (k : κ) (v v0 : β)
    (h : alGet l k = some v0) :
    ((alSet k v l).map (fun kv => f kv.2)).sum =
      (l.map (fun kv => f kv.2)).sum + f v - f v0 := by
  induction l with
  | nil => simp [alGet] at h
  | cons hd tl ih =>
    obtain ⟨k', v'⟩ := hd
    by_cases hk : k' = k
    · subst hk
      simp [alGet] at h
      subst h
      simp [alSet]
      ring
    · simp [alGet, hk] at h
      simp [alSet, hk, ih h]
      ring

theorem sum_alSet_absent (f : β → Int) (l : List (κ × β)) (k : κ) (v : β)
    (h : alGet l k = none) :
    ((alSet k v l).map (fun kv => f kv.2)).sum =
      (l.map (fun kv => f kv.2)).sum + f v := by
  induction l with
  | nil => simp [alSet]
  | cons hd tl ih =>
    obtain ⟨k', v'⟩ := hd
    by_cases hk : k' = k
    · subst hk
      simp [alGet] at h
    · simp [alGet, hk] at h
      simp [alSet, hk, ih h]
      ring

theorem sum_alErase (f : β → Int) (l : List (κ × β)) (k : κ) (v0 : β)
    (h : alGet l k = some v0) :
    ((alErase k l).map (fun kv => f kv.2)).sum =
      (l.map (fun kv => f kv.2)).sum - f v0 := by
  induction l with
  | nil => simp [alGet] at h
  | cons hd tl ih =>
    obtain ⟨k', v'⟩ := hd
    by_cases hk : k' = k
    · subst hk
      simp [alGet] at h
      subst h
      simp [alErase]
    · simp [alGet, hk] at h
      simp [alErase, hk, ih h]
      ring

theorem sum_filter_split (p : β → Bool) (f : β → Int) (l : List β) :
    (l.map f).sum = ((l.filter p).map f).sum +
      ((l.filter (fun x => !p x)).map f).sum := by
  induction l with
  | nil => simp
  | cons hd tl ih =>
    by_cases hp : p hd
    · simp [List.filter_cons, hp, ih]
      ring
    · simp [List.filter_cons, hp, ih]
      ring

end AssocLemmas

theorem refundAll_isSome (exp : List (Nat × Coinflip)) :
    ∀ (b : List (String × Int)) (j : String),
      (alGet b j).isSome → (alGet (refundAll b exp) j).isSome := by
  induction exp with
  | nil =>
    intro b j h
    simpa [refundAll] using h
  | cons kv rest ih =>
    intro b j h
    rw [refundAll]
    cases hc : alGet b kv.2.creator with
    | none => exact ih b j h
    | some c => exact ih _ j (alGet_isSome_alSet _ _ _ _ h)

theorem refundAll_sum (exp : List (Nat × Coinflip)) :
    ∀ (b : List (String × Int)),
      (∀ kv ∈ exp, (alGet b kv.2.creator).isSome) →
      ((refundAll b exp).map (fun kv => kv.2)).sum =
        (b.map (fun kv => kv.2)).sum + (exp.map (fun kv => kv.2.amount)).sum := by
  induction exp with
  | nil =>
    intro b _
    simp [refundAll]
  | cons kv rest ih =>
    intro b hpres
    have hhead := hpres kv (List.mem_cons_self _ _)
    obtain ⟨c, hc⟩ := Option.isSome_iff_exists.mp hhead
    rw [refundAll, hc]
    rw [ih _ ?pres]
    case pres =>
      intro kv2 h2
      exact alGet_isSome_alSet _ _ _ _ (hpres kv2 (List.mem_cons_of_mem _ h2))
    rw [sum_alSet_present (fun x => x) b kv.2.creator _ c hc]
    simp
    ring

theorem cf_pay_sum (b : List (String × Int)) (winner : String) (prize w : Int)
    (h : alGet b winner = some w) :
    ((cf_pay b winner prize).map (fun kv => kv.2)).sum =
      (b.map (fun kv => kv.2)).sum + prize := by
  rw [cf_pay, h, sum_alSet_present (fun x => x) b winner _ w h]
  ring

theorem cf_pay_isSome (b : List (String × Int)) (winner : String) (prize : Int)
    (j : String) (h : (alGet b j).isSome) :
    (alGet (cf_pay b winner prize) j).isSome := by
  rw [cf_pay]
  cases hg : alGet b winner with
  | none => exact h
  | some w => exact alGet_isSome_alSet _ _ _ _ h

theorem cfcreate_total (s : CFState) (uid : String) (amount : Int) (nowMs : Nat)
    (hfresh : alGet s.flips (cf_id_of_ms nowMs) = none) :
    cf_total (cfcreate s uid amount nowMs) = cf_total s := by
  rw [cfcreate]
  cases hu : alGet s.balances uid with
  | none => rfl
  | some coins =>
    dsimp only
    by_cases h1 : amount ≤ 0
    · simp [h1]
    · by_cases h2 : coins < amount
      · simp [h1, h2]
      · rw [if_neg h1, if_neg h2]
        show ((alSet uid (coins - amount) s.balances).map (fun kv => kv.2)).sum +
            ((alSet (cf_id_of_ms nowMs)
              { creator := uid, amount := amount, time := nowMs / 1000 }
              s.flips).map (fun kv => kv.2.amount)).sum = cf_total s
        rw [sum_alSet_present (fun x => x) s.balances uid _ coins hu,
          sum_alSet_absent (fun c => c.amount) s.flips _ _ hfresh]
        rw [cf_total]
        ring

theorem cftake_total (s : CFState) (uid : String) (id : Nat) (creatorWins : Bool)
    (hwf : CFWellFormed s) :
    cf_total (cftake s uid id creatorWins) = cf_total s := by
  rw [cftake]
  cases hu : alGet s.balances uid with
  | none => rfl
  | some coins =>
    dsimp only
    cases hf : alGet s.flips id with
    | none => rfl
    | some flip =>
      dsimp only
      by_cases heq : uid = flip.creator
      · simp [heq]
      · by_cases hlt : coins < flip.amount
        · simp [heq, hlt]
        · rw [if_neg heq, if_neg hlt]
          have hmem : (id, flip) ∈ s.flips := alGet_mem _ _ _ hf
          have hcre : (alGet s.balances flip.creator).isSome := hwf (id, flip) hmem
          obtain ⟨w, hw⟩ := Option.isSome_iff_exists.mp hcre
          have hb1sum : ((alSet uid (coins - flip.amount) s.balances).map
              (fun kv => kv.2)).sum =
              (s.balances.map (fun kv => kv.2)).sum - flip.amount := by
            rw [sum_alSet_present (fun x => x) s.balances uid _ coins hu]
            ring
          have hflips : ((alErase id s.flips).map (fun kv => kv.2.amount)).sum =
              (s.flips.map (fun kv => kv.2.amount)).sum - flip.amount :=
            sum_alErase (fun c => c.amount) s.flips id flip hf
          have hwin : ∃ w2, alGet (alSet uid (coins - flip.amount) s.balances)
              (if creatorWins then flip.creator else uid) = some w2 := by
            by_cases hw2 : creatorWins
            · refine ⟨w, ?_⟩
              rw [if_pos hw2, alGet_alSet, if_neg (fun hh => heq hh.symm)]
              exact hw
            · refine ⟨coins - flip.amount, ?_⟩
              rw [if_neg hw2, alGet_alSet, if_pos rfl]
          obtain ⟨w2, hw2⟩ := hwin
          show ((cf_pay (alSet uid (coins - flip.amount) s.balances)
              (if creatorWins then flip.creator else uid)
              (2 * flip.amount)).map (fun kv => kv.2)).sum +
            ((alErase id s.flips).map (fun kv => kv.2.amount)).sum = cf_total s
          rw [cf_pay_sum _ _ _ w2 hw2, hb1sum, hflips, cf_total]
          ring

theorem cleanup_total (s : CFState) (now : Nat) (hwf : CFWellFormed s) :
    cf_total (coinflip_cleanup s now) = cf_total s := by
  have hpres : ∀ kv ∈ s.flips.filter (cf_expired now),
      (alGet s.balances kv.2.creator).isSome := by
    intro kv hkv
    exact hwf kv (List.mem_of_mem_filter hkv)
  have hsum := refundAll_sum (s.flips.filter (cf_expired now)) s.balances hpres
  have hsplit := sum_filter_split (cf_expired now) (fun kv => kv.2.amount) s.flips
  show ((refundAll s.balances (s.flips.filter (cf_expired now))).map
      (fun kv => kv.2)).sum +
    ((s.flips.filter (fun kv => !cf_expired now kv)).map
      (fun kv => kv.2.amount)).sum = cf_total s
  rw [hsum, cf_total]
  omega

theorem cfcreate_wf (s : CFState) (uid : String) (amount : Int) (nowMs : Nat)
    (hwf : CFWellFormed s) : CFWellFormed (cfcreate s uid amount nowMs) := by
  rw [cfcreate]
  cases hu : alGet s.balances uid with
  | none => exact hwf
  | some coins =>
    dsimp only
    by_cases h1 : amount ≤ 0
    · simpa [h1] using hwf
    · by_cases h2 : coins < amount
      · simpa [h1, h2] using hwf
      · rw [if_neg h1, if_neg h2]
        intro kv hkv
        rcases mem_alSet _ _ _ _ hkv with h | h
        · subst h
          show (alGet (alSet uid (coins - amount) s.balances) uid).isSome
          rw [alGet_alSet, if_pos rfl]
          rfl
        · exact alGet_isSome_alSet _ _ _ _ (hwf kv h)

theorem cftake_wf (s : CFState) (uid : String) (id : Nat) (creatorWins : Bool)
    (hwf : CFWellFormed s) : CFWellFormed (cftake s uid id creatorWins) := by
  rw [cftake]
  cases hu : alGet s.balances uid with
  | none => exact hwf
  | some coins =>
    dsimp only
    cases hf : alGet s.flips id with
    | none => exact hwf
    | some flip =>
      dsimp only
      by_cases heq : uid = flip.creator
      · simpa [heq] using hwf
      · by_cases hlt : coins < flip.amount
        · simpa [heq, hlt] using hwf
        · rw [if_neg heq, if_neg hlt]
          intro kv hkv
          have hmem := mem_alErase _ _ _ hkv
          have hbase := hwf kv hmem
          exact cf_pay_isSome _ _ _ _ (alGet_isSome_alSet _ _ _ _ hbase)

theorem cleanup_wf (s : CFState) (now : Nat) (hwf : CFWellFormed s) :
    CFWellFormed (coinflip_cleanup s now) := by
  rw [coinflip_cleanup]
  intro kv hkv
  have hmem := List.mem_of_mem_filter hkv
  exact refundAll_isSome _ _ _ (hwf kv hmem)

theorem cf_apply_wf (s : CFState) (op : CFOp) (hwf : CFWellFormed s) :
    CFWellFormed (cf_apply s op) := by
  cases op with
  | create uid amount nowMs => exact cfcreate_wf s uid amount nowMs hwf
  | take uid id creatorWins => exact cftake_wf s uid id creatorWins hwf
  | cleanup now => exact cleanup_wf s now hwf

/-- Claim C10 (amended): the coinflip subsystem conserves coins as long as
no `cfcreate` reuses the time-derived id (last six digits of the
millisecond clock) of a coinflip still open at that moment: for any such
sequence of operations on a state whose open flips all belong to
registered players, the sum of all balances plus the escrowed stakes is
unchanged.  On an id collision, the earlier escrow is overwritten by the
plain dict assignment and its stake vanishes (see the counterexample). -/
theorem C10_conservation :
    ∀ (ops : List CFOp) (s : CFState),
      CFWellFormed s → cf_safe s ops = true →
      cf_total (cf_run s ops) = cf_total s := by
  intro ops
  induction ops with
  | nil =>
    intro s _ _
    rfl
  | cons op rest ih =>
    intro s hwf hsafe
    rw [cf_run]
    have hwf2 := cf_apply_wf s op hwf
    cases op with
    | create uid amount nowMs =>
      simp only [cf_safe, Bool.and_eq_true] at hsafe
      have hfresh : alGet s.flips (cf_id_of_ms nowMs) = none :=
        Option.isNone_iff_eq_none.mp hsafe.1
      rw [ih _ hwf2 hsafe.2]
      exact cfcreate_total s uid amount nowMs hfresh
    | take uid id creatorWins =>
      simp only [cf_safe, Bool.and_eq_true, true_and] at hsafe
      rw [ih _ hwf2 hsafe]
      exact cftake_total s uid id creatorWins hwf
    | cleanup now =>
      simp only [cf_safe, Bool.and_eq_true, true_and] at hsafe
      rw [ih _ hwf2 hsafe]
      exact cleanup_total s now hwf

/-- Witness for C10: a concrete well-formed state runs a fresh create, a
take, and a cleanup, and the total is preserved. -/
theorem C10_witness :
    cf_total (cf_run demoCFState
      [CFOp.create "b" 20 5000000, CFOp.take "b" 7 false, CFOp.cleanup 99999]) =
      cf_total demoCFState :=
  C10_conservation [CFOp.create "b" 20 5000000, CFOp.take "b" 7 false, CFOp.cleanup 99999]
    demoCFState (by unfold CFWellFormed; decide) (by decide)

/-- Claim C10 counterexample: two `cfcreate`s 1000 seconds apart (within
the 1800-second expiry window) derive the same six-digit id; the second
overwrites the first escrow and 50 coins vanish from the system
(200 → 150), refuting unconditional conservation. -/
theorem C10_counterexample :
    cf_total (cf_run collideState
      [CFOp.create "a" 50 1000000000000, CFOp.create "b" 50 1000001000000]) = 150 ∧
    cf_total collideState = 200 ∧
    cf_id_of_ms 1000000000000 = cf_id_of_ms 1000001000000 ∧
    (1000001000000 - 1000000000000) / 1000 < EXPIRY_SECONDS := by
  refine ⟨by decide, by decide, by decide, by decide⟩

end PixelHeroes
